import Mathlib

/-!
Verification of the AdventureForge story-graph engine.

The definitions below are a shallow embedding of the TypeScript source:
`src/App.tsx`, `src/components/StoryEditor.tsx`, `src/components/StoryPlayer.tsx`
and the shared type declarations.  JavaScript objects used as string-keyed
maps (`Record<string, StoryNode>`) are embedded as association lists that
keep insertion order: assigning to a present key replaces the value in
place, assigning to an absent key appends at the end, `delete` removes the
key.  `Date.now()` is an environment input, passed to each operation as a
`Nat` parameter; the template-literal interpolation of that number is
`Nat.repr`.  JavaScript truthiness of optional strings ("" and `undefined`
are falsy) is modelled explicitly where the source relies on it.
-/

/-- `src/types.ts` — `Choice`: a labelled directed edge. -/
structure Choice where
  id : String
  text : String
  targetNodeId : String
deriving Repr, DecidableEq

/-- `src/types.ts` — `StoryNode`: a scene.  The optional `isAiGenerated`
flag is embedded as a `Bool` (absent = `false`; only its truthiness is ever
read).  `imageUrl` is optional. -/
structure StoryNode where
  id : String
  title : String
  content : String
  choices : List Choice
  isAiGenerated : Bool := false
  imageUrl : Option String := none
deriving Repr, DecidableEq

/-- `src/types.ts` — `Story`: the document root.  `nodes` is the
insertion-ordered string-keyed map. -/
structure Story where
  id : String
  name : String
  nodes : List (String × StoryNode)
  startNodeId : String
  imageStyle : Option String := none
deriving Repr, DecidableEq

/-- JS object read `m[k]`: the value at key `k`, if present. -/
def recordGet {β : Type} (m : List (String × β)) (k : String) : Option β :=
  match m with
  | [] => none
  | (k', v) :: rest => if k' = k then some v else recordGet rest k

/-- JS `k in m` / truthiness of `m[k]` for object values. -/
def recordHas {β : Type} (m : List (String × β)) (k : String) : Bool :=
  (recordGet m k).isSome

/-- JS object write `m[k] = v`: replace in place if the key is present,
append at the end otherwise. -/
def recordSet {β : Type} (m : List (String × β)) (k : String) (v : β) :
    List (String × β) :=
  match m with
  | [] => [(k, v)]
  | (k', v') :: rest =>
    if k' = k then (k, v) :: rest else (k', v') :: recordSet rest k v

/-- JS `delete m[k]`. -/
def recordDelete {β : Type} (m : List (String × β)) (k : String) :
    List (String × β) :=
  m.filter (fun p => p.1 != k)

/-- Decimal character list of `n`, most significant first, via `Nat.digits`. -/
def decChars (n : Nat) : List Char :=
  ((Nat.digits 10 n).map Nat.digitChar).reverse

/-- `handleDeleteNode` (StoryEditor.tsx:116-130).  `none` models the
rejected branch (the alert and early return; `onUpdateStory` is never
called, the document is unchanged).  The confirmed branch removes the key
and filters every remaining node's choices by `targetNodeId !== id`. -/
def handleDeleteNode (story : Story) (id : String) : Option Story :=
  if id = story.startNodeId then none
  else
    let afterDelete := recordDelete story.nodes id
    let cascaded := afterDelete.map (fun p =>
      (p.1, { p.2 with choices := p.2.choices.filter (fun c => c.targetNodeId != id) }))
    some { story with nodes := cascaded }

/-- `handleAddNode` (StoryEditor.tsx:102-114) with `Date.now() = now`. -/
def handleAddNode (story : Story) (now : Nat) : Story :=
  let newId := "node-" ++ Nat.repr now
  let newNode : StoryNode :=
    { id := newId, title := "New Chapter", content := "A new thread begins...",
      choices := [] }
  { story with nodes := recordSet story.nodes newId newNode }

/-- `handleSaveNode` (StoryEditor.tsx:94-100): commits the edit buffer
wholesale at its id.  Edit-node, add-choice, remove-choice and
retarget-choice mutations are committed to the document through this. -/
def handleSaveNode (story : Story) (editNode : StoryNode) : Story :=
  { story with nodes := recordSet story.nodes editNode.id editNode }

/-- `handleAddChoice` (StoryEditor.tsx:132-143): appends a fresh choice to
the edit buffer, targeting the start node by default. -/
def handleAddChoice (story : Story) (editNode : StoryNode) (now : Nat) :
    StoryNode :=
  { editNode with choices := editNode.choices ++
      [{ id := "choice-" ++ Nat.repr now, text := "New Path",
         targetNodeId := story.startNodeId }] }

/-- Choice removal (StoryEditor.tsx:482):
`choices.filter((_, i) => i !== idx)` on the edit buffer. -/
def removeChoice (editNode : StoryNode) (idx : Nat) : StoryNode :=
  { editNode with choices :=
      ((editNode.choices.enum.filter (fun p => p.1 != idx)).map (fun p => p.2)) }

/-- Choice retargeting (StoryEditor.tsx:500-503):
`newChoices[idx].targetNodeId = value` on the edit buffer. -/
def retargetChoice (editNode : StoryNode) (idx : Nat) (target : String) :
    StoryNode :=
  { editNode with choices := editNode.choices.enum.map (fun p =>
      if p.1 = idx then { p.2 with targetNodeId := target } else p.2) }

/-- `linkedNodeIds` (StoryEditor.tsx:73-79): the set of every
`targetNodeId` of every choice of every node.  The JS `Set` is embedded as
a list queried by membership. -/
def linkedNodeIds (story : Story) : List String :=
  (story.nodes.map (fun p => p.2.choices.map (fun c => c.targetNodeId))).flatten

/-- `isOrphan` (StoryEditor.tsx:342):
`node.id !== story.startNodeId && !linkedNodeIds.has(node.id)`. -/
def isOrphan (story : Story) (node : StoryNode) : Bool :=
  node.id != story.startNodeId && !((linkedNodeIds story).contains node.id)

/-- A parsed JSON candidate document, before any validation: every
top-level field may be absent. -/
structure RawStory where
  id : Option String := none
  name : Option String := none
  nodes : Option (List (String × StoryNode)) := none
  startNodeId : Option String := none
  imageStyle : Option String := none
deriving Repr, DecidableEq

/-- JS truthiness of an optional string: absent and `""` are falsy. -/
def jsTruthyStr : Option String → Bool
  | none => false
  | some s => s != ""

/-- `StoryEditor.handleImportFile` (StoryEditor.tsx:231-258), the
reader-onload body: `!nodes || !startNodeId || !name` throws (caught:
rejection, no `onUpdateStory`, document untouched — modelled as `none`);
otherwise the raw candidate replaces the document wholesale. -/
def editorImportFile (cand : RawStory) : Option RawStory :=
  if !cand.nodes.isSome || !jsTruthyStr cand.startNodeId || !jsTruthyStr cand.name
  then none
  else some cand

/-- `App.handleImportFile` (App.tsx:65-91) plus `finalizeImport`
(App.tsx:93-99): `Object.keys(importedStory.nodes)` throws when `nodes` is
absent (caught: rejection); otherwise each node's data-image URL is passed
through the resize collaborator (`resize`, an opaque media transformation)
and the candidate is staged and then committed wholesale.  No other field
is validated. -/
def appImportFile (resize : String → String) (cand : RawStory) :
    Option RawStory :=
  match cand.nodes with
  | none => none
  | some ns =>
    some { cand with nodes := some (ns.map (fun p => (p.1,
      { p.2 with imageUrl := p.2.imageUrl.map (fun u =>
          if u ≠ "" ∧ u.startsWith "data:image" then resize u else u) })))}

/-- The player's cursor state: `currentNodeId` and `history`
(StoryPlayer.tsx:27-28). -/
structure Session where
  currentNodeId : String
  history : List String
deriving Repr, DecidableEq

/-- Initial session state: both start at `story.startNodeId`. -/
def initSession (story : Story) : Session :=
  { currentNodeId := story.startNodeId, history := [story.startNodeId] }

/-- `handleChoice` (StoryPlayer.tsx:135-140). -/
def handleChoice (s : Session) (targetId : String) : Session :=
  { currentNodeId := targetId, history := s.history ++ [targetId] }

/-- `handleStepBack` (StoryPlayer.tsx:142-150). -/
def handleStepBack (s : Session) : Session :=
  if s.history.length ≤ 1 then s
  else
    let newHistory := s.history.dropLast
    { currentNodeId := newHistory.getLastD "", history := newHistory }

/-- The Restart button handler (StoryPlayer.tsx:383), confirmed path: only
`setCurrentNodeId(story.startNodeId)` runs; `history` is not touched. -/
def restartSession (story : Story) (s : Session) : Session :=
  { s with currentNodeId := story.startNodeId }

/-- One choice descriptor of a `generateNextSteps` result
(`src/services/geminiService.ts`): `text` required, `nodeDescription` and
`targetExistingNodeId` optional. -/
structure GenChoice where
  text : String
  nodeDescription : Option String := none
  targetExistingNodeId : Option String := none
deriving Repr, DecidableEq

/-- A `generateNextSteps` result: continuation content plus choice
descriptors. -/
structure GenResult where
  nodeContent : String
  choices : List GenChoice
deriving Repr, DecidableEq

/-- JS `a || b` on an optional string: falls back when absent or `""`. -/
def jsOrString (v : Option String) (d : String) : String :=
  match v with
  | none => d
  | some s => if s = "" then d else s

/-- The guard of StoryPlayer.tsx:166,
`c.targetExistingNodeId && newStory.nodes[c.targetExistingNodeId]`:
the link target when that conjunction is truthy against the current
(mutated-so-far) nodes map, else `none`. -/
def linkTarget (nodes : List (String × StoryNode)) (c : GenChoice) :
    Option String :=
  match c.targetExistingNodeId with
  | none => none
  | some t => if t ≠ "" ∧ recordHas nodes t then some t else none

/-- The template literal `ai-link-${Date.now()}-${idx}` (StoryPlayer.tsx:168). -/
def aiLinkId (now idx : Nat) : String :=
  "ai-link-" ++ Nat.repr now ++ "-" ++ Nat.repr idx

/-- The template literal `ai-node-${Date.now()}-${idx}` (StoryPlayer.tsx:174). -/
def aiNodeId (now idx : Nat) : String :=
  "ai-node-" ++ Nat.repr now ++ "-" ++ Nat.repr idx

/-- The template literal `ai-choice-${Date.now()}-${idx}` (StoryPlayer.tsx:183). -/
def aiChoiceId (now idx : Nat) : String :=
  "ai-choice-" ++ Nat.repr now ++ "-" ++ Nat.repr idx

/-- The node minted for a divergent generated choice
(StoryPlayer.tsx:175-181). -/
def aiNewNode (c : GenChoice) (now idx : Nat) : StoryNode :=
  { id := aiNodeId now idx, title := "The Path of " ++ c.text,
    content := jsOrString c.nodeDescription "The story unfolds...",
    choices := [], isAiGenerated := true }

/-- The body of `result.choices.map((c, idx) => ...)`
(StoryPlayer.tsx:165-187), threading the in-place additions to
`newStory.nodes`: returns the built choice list and the nodes map after
all minting. -/
def buildAiChoices (now : Nat) :
    List (String × StoryNode) → List GenChoice → Nat →
    List Choice × List (String × StoryNode)
  | nodes, [], _ => ([], nodes)
  | nodes, c :: rest, idx =>
    match linkTarget nodes c with
    | some t =>
      let ch : Choice :=
        { id := aiLinkId now idx, text := c.text, targetNodeId := t }
      let r := buildAiChoices now nodes rest (idx + 1)
      (ch :: r.1, r.2)
    | none =>
      let nodes' := recordSet nodes (aiNodeId now idx) (aiNewNode c now idx)
      let ch : Choice :=
        { id := aiChoiceId now idx, text := c.text,
          targetNodeId := aiNodeId now idx }
      let r := buildAiChoices now nodes' rest (idx + 1)
      (ch :: r.1, r.2)

/-- Condition under which a generated choice diverges (mints a new node)
no matter how far the merge loop has progressed: its named target, if
any, is empty or names neither a pre-merge node nor any mintable
`ai-node` id.  Used to state C5. -/
def divergentFor (nodes : List (String × StoryNode)) (now : Nat)
    (c : GenChoice) : Prop :=
  ∀ t, c.targetExistingNodeId = some t →
    t = "" ∨ (recordHas nodes t = false ∧ ∀ j, t ≠ aiNodeId now j)

/-- A generated choice in the shape the collaborator contract intends:
either convergent onto a pre-merge node, or divergent.  Used to state
C5. -/
def okShape (nodes : List (String × StoryNode)) (now : Nat)
    (c : GenChoice) : Prop :=
  (∃ t, c.targetExistingNodeId = some t ∧ t ≠ "" ∧
    recordHas nodes t = true) ∨ divergentFor nodes now c

/-- `handleAiGeneration` (StoryPlayer.tsx:152-201), successful completion
path.  `story` and `currentNode` are the values captured by the handler's
closure; the merge runs against them without re-checking that
`currentNodeId` is still a key of the live document, and the result is
committed wholesale through `onUpdateStory`. -/
def handleAiGeneration (story : Story) (currentNodeId : String)
    (currentNode : StoryNode) (result : GenResult) (now : Nat) : Story :=
  let built := buildAiChoices now story.nodes result.choices 0
  let merged : StoryNode :=
    { currentNode with
        content := if result.nodeContent = "" then currentNode.content
                   else result.nodeContent,
        choices := built.1 }
  { story with nodes := recordSet built.2 currentNodeId merged }

/-- One expansion step: add every choice target of every id currently in
the accumulator. -/
def expandOnce (story : Story) (acc : List String) : List String :=
  acc ++ ((acc.map (fun i =>
    match recordGet story.nodes i with
    | some n => n.choices.map (fun c => c.targetNodeId)
    | none => [])).flatten).filter (fun t => !acc.contains t)

/-- Ids reachable from the start node within `fuel` steps. -/
def reachableSet (story : Story) : Nat → List String
  | 0 => [story.startNodeId]
  | f + 1 => expandOnce story (reachableSet story f)

/-- Reachability from the start node (fuel = number of nodes). -/
def reachableFromStart (story : Story) (id : String) : Bool :=
  (reachableSet story story.nodes.length).contains id

/-- The spec's 3-node scenario: `A → B → C` plus the convergent edge
`A → C`. -/
def docABC : Story :=
  { id := "doc-abc", name := "ABC",
    nodes :=
      [("A", { id := "A", title := "A", content := "a",
               choices := [{ id := "cab", text := "to B", targetNodeId := "B" },
                           { id := "cac", text := "to C", targetNodeId := "C" }] }),
       ("B", { id := "B", title := "B", content := "b",
               choices := [{ id := "cbc", text := "to C", targetNodeId := "C" }] }),
       ("C", { id := "C", title := "C", content := "c", choices := [] })],
    startNodeId := "A" }

/-- A start node plus a dead-end node `X` being expanded. -/
def docExpand : Story :=
  { id := "doc-expand", name := "Expand",
    nodes :=
      [("A", { id := "A", title := "Origin", content := "a",
               choices := [{ id := "cax", text := "to X", targetNodeId := "X" }] }),
       ("X", { id := "X", title := "Dead End", content := "x", choices := [] })],
    startNodeId := "A" }

/-- The dead-end node of `docExpand`, as captured by the player's closure. -/
def deadEndX : StoryNode :=
  { id := "X", title := "Dead End", content := "x", choices := [] }

/-- `docExpand` after the user deletes `X` while the generation request is
in flight: `X` is gone and `A`'s choice to it is cascaded away. -/
def docExpandDeleted : Story :=
  { id := "doc-expand", name := "Expand",
    nodes :=
      [("A", { id := "A", title := "Origin", content := "a", choices := [] })],
    startNodeId := "A" }

/-- A generation result with no choices, only continuation content. -/
def resultContentOnly : GenResult :=
  { nodeContent := "The mists part.", choices := [] }

/-- A document whose nodes `X` and `Y` form a cycle unreachable from the
start node `S`. -/
def docCluster : Story :=
  { id := "doc-cluster", name := "Cluster",
    nodes :=
      [("S", { id := "S", title := "Start", content := "s", choices := [] }),
       ("X", { id := "X", title := "X", content := "x",
               choices := [{ id := "cxy", text := "to Y", targetNodeId := "Y" }] }),
       ("Y", { id := "Y", title := "Y", content := "y",
               choices := [{ id := "cyx", text := "to X", targetNodeId := "X" }] })],
    startNodeId := "S" }

/-- The `X` member of `docCluster`'s unreachable cycle. -/
def clusterX : StoryNode :=
  { id := "X", title := "X", content := "x",
    choices := [{ id := "cxy", text := "to Y", targetNodeId := "Y" }] }

/-- A document with a self-loop on an otherwise unreferenced non-start
node `L`. -/
def docSelfLoop : Story :=
  { id := "doc-loop", name := "Loop",
    nodes :=
      [("S", { id := "S", title := "Start", content := "s", choices := [] }),
       ("L", { id := "L", title := "Loop", content := "l",
               choices := [{ id := "cll", text := "again", targetNodeId := "L" }] })],
    startNodeId := "S" }

/-- The self-looping node of `docSelfLoop`. -/
def loopL : StoryNode :=
  { id := "L", title := "Loop", content := "l",
    choices := [{ id := "cll", text := "again", targetNodeId := "L" }] }

/-- A generation result with one convergent choice (onto node `A` of
`docExpand`) and one divergent choice. -/
def resultMixed : GenResult :=
  { nodeContent := "Continuation.",
    choices := [{ text := "Return", nodeDescription := none,
                  targetExistingNodeId := some "A" },
                { text := "Onward", nodeDescription := some "A new cave.",
                  targetExistingNodeId := none }] }

/-- Node `X` of `docExpand` after merging `resultMixed` at
`Date.now() = 777`. -/
def mergedX1 : StoryNode :=
  { id := "X", title := "Dead End", content := "Continuation.",
    choices := [{ id := "ai-link-777-0", text := "Return",
                  targetNodeId := "A" },
                { id := "ai-choice-777-1", text := "Onward",
                  targetNodeId := "ai-node-777-1" }] }

/-- An import candidate with `nodes` and `name` present but `startNodeId`
absent. -/
def candNoStart : RawStory :=
  { id := some "cand", name := some "Imported Saga",
    nodes := some [("n1", { id := "n1", title := "T", content := "c",
                            choices := [] })],
    startNodeId := none }

/-- Node `A` of `docABC` after the cascade of deleting `B`: only the
choice to `C` remains. -/
def nodeAAfterDeleteB : StoryNode :=
  { id := "A", title := "A", content := "a",
    choices := [{ id := "cac", text := "to C", targetNodeId := "C" }] }

theorem recordGet_set_self {β : Type} (m : List (String × β)) (k : String)
    (v : β) : recordGet (recordSet m k v) k = some v := by
  induction m with
  | nil => simp [recordSet, recordGet]
  | cons p rest ih =>
    obtain ⟨k', v'⟩ := p
    by_cases h : k' = k
    · simp [recordSet, recordGet, h]
    · simp [recordSet, recordGet, h, ih]

theorem recordGet_set_ne {β : Type} (m : List (String × β)) (k k' : String)
    (v : β) (h : k' ≠ k) : recordGet (recordSet m k v) k' = recordGet m k' := by
  induction m with
  | nil => simp [recordSet, recordGet, Ne.symm h]
  | cons p rest ih =>
    obtain ⟨k₀, v₀⟩ := p
    by_cases h₀ : k₀ = k
    · subst h₀
      simp [recordSet, recordGet, Ne.symm h]
    · simp only [recordSet, if_neg h₀]
      by_cases h₁ : k₀ = k'
      · simp [recordGet, h₁]
      · simp [recordGet, h₁, ih]

theorem recordGet_delete_self {β : Type} (m : List (String × β)) (k : String) :
    recordGet (recordDelete m k) k = none := by
  induction m with
  | nil => simp [recordDelete, recordGet]
  | cons p rest ih =>
    obtain ⟨k', v'⟩ := p
    by_cases h : k' = k
    · simpa [recordDelete, h] using ih
    · simpa [recordDelete, recordGet, h] using ih

theorem recordGet_delete_ne {β : Type} (m : List (String × β)) (k k' : String)
    (h : k' ≠ k) : recordGet (recordDelete m k) k' = recordGet m k' := by
  induction m with
  | nil => simp [recordDelete, recordGet]
  | cons p rest ih =>
    obtain ⟨k₀, v₀⟩ := p
    by_cases h₀ : k₀ = k
    · subst h₀
      simpa [recordDelete, List.filter_cons, recordGet, Ne.symm h] using ih
    · by_cases h₁ : k₀ = k'
      · simp [recordDelete, List.filter_cons, recordGet, h₀, h₁, h]
      · simpa [recordDelete, List.filter_cons, recordGet, h₀, h₁] using ih

theorem recordGet_mapValues {β γ : Type} (m : List (String × β))
    (f : β → γ) (k : String) :
    recordGet (m.map (fun p => (p.1, f p.2))) k = (recordGet m k).map f := by
  induction m with
  | nil => simp [recordGet]
  | cons p rest ih =>
    obtain ⟨k', v'⟩ := p
    by_cases h : k' = k
    · simp [recordGet, h]
    · simp [recordGet, h, ih]

theorem recordHas_set {β : Type} (m : List (String × β)) (k k' : String)
    (v : β) (h : recordHas m k' = true) :
    recordHas (recordSet m k v) k' = true := by
  by_cases hk : k' = k
  · subst hk
    simp [recordHas, recordGet_set_self]
  · simpa [recordHas, recordGet_set_ne m k k' v hk] using h

theorem toDigitsCore_eq_decChars (f : Nat) :
    ∀ (n : Nat) (acc : List Char), n ≠ 0 → n < f →
      Nat.toDigitsCore 10 f n acc = decChars n ++ acc := by
  induction f with
  | zero => intro n acc _ h; omega
  | succ f ih =>
    intro n acc hn _
    by_cases hdiv : n / 10 = 0
    · have hd : Nat.digits 10 n = [n % 10] := by
        rw [Nat.digits_def' (by norm_num) (Nat.pos_of_ne_zero hn), hdiv]
        simp
      simp [Nat.toDigitsCore, hdiv, decChars, hd]
    · have hlt : n / 10 < f := by
        have h1 : n / 10 < n := Nat.div_lt_self (Nat.pos_of_ne_zero hn) (by norm_num)
        omega
      have hd : Nat.digits 10 n = n % 10 :: Nat.digits 10 (n / 10) :=
        Nat.digits_def' (by norm_num) (Nat.pos_of_ne_zero hn)
      rw [show Nat.toDigitsCore 10 (f + 1) n acc =
            Nat.toDigitsCore 10 f (n / 10) (Nat.digitChar (n % 10) :: acc) by
            simp [Nat.toDigitsCore, hdiv],
          ih (n / 10) (Nat.digitChar (n % 10) :: acc) hdiv hlt]
      simp [decChars, hd]

theorem toDigits_eq_decChars (n : Nat) (hn : n ≠ 0) :
    Nat.toDigits 10 n = decChars n :=
  by simpa using toDigitsCore_eq_decChars (n + 1) n [] hn (by omega)

theorem digitChar_inj_lt (a b : Nat) (ha : a < 10) (hb : b < 10)
    (h : Nat.digitChar a = Nat.digitChar b) : a = b := by
  have key : ∀ x : Fin 10, ∀ y : Fin 10,
      Nat.digitChar x.val = Nat.digitChar y.val → x = y := by decide
  have := key ⟨a, ha⟩ ⟨b, hb⟩ h
  simpa [Fin.ext_iff] using this

theorem map_digitChar_inj :
    ∀ (l₁ l₂ : List Nat), (∀ x ∈ l₁, x < 10) → (∀ x ∈ l₂, x < 10) →
      l₁.map Nat.digitChar = l₂.map Nat.digitChar → l₁ = l₂ := by
  intro l₁
  induction l₁ with
  | nil => intro l₂ _ _ h; cases l₂ <;> simp_all
  | cons a t ih =>
    intro l₂ h₁ h₂ h
    cases l₂ with
    | nil => simp at h
    | cons b t' =>
      simp only [List.map_cons, List.cons.injEq] at h
      have hab : a = b :=
        digitChar_inj_lt a b (h₁ a (by simp)) (h₂ b (by simp)) h.1
      have ht : t = t' :=
        ih t' (fun x hx => h₁ x (by simp [hx])) (fun x hx => h₂ x (by simp [hx])) h.2
      rw [hab, ht]

theorem decChars_inj (m n : Nat) (hm : m ≠ 0) (hn : n ≠ 0)
    (h : decChars m = decChars n) : m = n := by
  unfold decChars at h
  have h' : (Nat.digits 10 m).map Nat.digitChar =
      (Nat.digits 10 n).map Nat.digitChar :=
    List.reverse_injective h
  have hd : Nat.digits 10 m = Nat.digits 10 n :=
    map_digitChar_inj _ _
      (fun x hx => Nat.digits_lt_base (by norm_num) hx)
      (fun x hx => Nat.digits_lt_base (by norm_num) hx) h'
  have := congrArg (Nat.ofDigits 10) hd
  simpa [Nat.ofDigits_digits] using this

theorem decChars_ne_singleton_zero (n : Nat) (hn : n ≠ 0) :
    decChars n ≠ ['0'] := by
  intro h
  have h' : (Nat.digits 10 n).map Nat.digitChar = ['0'] := by
    have := congrArg List.reverse h
    simpa [decChars] using this
  cases hdig : Nat.digits 10 n with
  | nil => rw [hdig] at h'; simp at h'
  | cons d t =>
    rw [hdig] at h'
    simp only [List.map_cons, List.cons.injEq, List.map_eq_nil_iff] at h'
    obtain ⟨hd0, ht⟩ := h'
    have hdlt : d < 10 := Nat.digits_lt_base (by norm_num) (by rw [hdig]; simp)
    have hd : d = 0 := digitChar_inj_lt d 0 hdlt (by norm_num) hd0
    have hzero : n = 0 := by
      have hof := Nat.ofDigits_digits 10 n
      rw [hdig, ht, hd] at hof
      simpa [Nat.ofDigits] using hof.symm
    exact hn hzero

theorem nat_repr_injective : Function.Injective Nat.repr := by
  intro m n h
  have hdata : Nat.toDigits 10 m = Nat.toDigits 10 n := by
    have := congrArg String.data h
    simpa [Nat.repr, List.asString] using this
  have h0 : Nat.toDigits 10 0 = ['0'] := by rfl
  by_cases hm : m = 0
  · by_cases hn : n = 0
    · rw [hm, hn]
    · exfalso
      rw [hm, h0, toDigits_eq_decChars n hn] at hdata
      exact decChars_ne_singleton_zero n hn hdata.symm
  · by_cases hn : n = 0
    · exfalso
      rw [hn, h0, toDigits_eq_decChars m hm] at hdata
      exact decChars_ne_singleton_zero m hm hdata
    · rw [toDigits_eq_decChars m hm, toDigits_eq_decChars n hn] at hdata
      exact decChars_inj m n hm hn hdata

/-- String concatenation with a fixed left part is injective on the right
part; used to show distinct minted ids. -/
theorem string_append_left_cancel (a s t : String)
    (h : a ++ s = a ++ t) : s = t := by
  have hd := congrArg String.data h
  simp only [String.data_append] at hd
  exact String.ext (List.append_cancel_left hd)

/-- C1: Applying the AI-expansion merge for node `X` after `X` was deleted
from the document is NOT a no-op: the committed document still contains a
node keyed `X` (the merge writes its captured snapshot back, resurrecting
the node), and it differs from the pre-merge document.  This contradicts
the claim that the merge re-validates and fails cleanly. -/
theorem ai_merge_resurrects_deleted_node :
    handleDeleteNode docExpand "X" = some docExpandDeleted ∧
    recordGet docExpandDeleted.nodes "X" = none ∧
    recordHas (handleAiGeneration docExpand "X" deadEndX
      resultContentOnly 777).nodes "X" = true ∧
    handleAiGeneration docExpand "X" deadEndX resultContentOnly 777 ≠
      docExpandDeleted := by decide

/-- C4: The welcome-screen import pipeline (`App.handleImportFile` +
`finalizeImport`) accepts a candidate whose `startNodeId` field is absent
and stages it for wholesale commit, instead of rejecting it: only a
missing `nodes` field is (incidentally) rejected there.  The editor-side
path does validate all three fields, so the two paths disagree and the
claim fails on the welcome-screen path. -/
theorem app_import_accepts_missing_start :
    appImportFile (fun u => u) candNoStart = some candNoStart ∧
    candNoStart.startNodeId = none ∧
    editorImportFile candNoStart = none := by decide

/-- C7: The Restart button resets only the cursor; the history stack is
left untouched, so after restarting a two-step session the history is
still two elements, not `[startNodeId]`. -/
theorem restart_keeps_history :
    restartSession docABC { currentNodeId := "B", history := ["A", "B"] } =
      { currentNodeId := "A", history := ["A", "B"] } ∧
    (restartSession docABC
      { currentNodeId := "B", history := ["A", "B"] }).history ≠ ["A"] := by
  decide

/-! ### Supporting lemmas for the mutation operations -/
theorem recordSet_append_of_not_has {β : Type} (m : List (String × β))
    (k : String) (v : β) (h : recordHas m k = false) :
    recordSet m k v = m ++ [(k, v)] := by
  induction m with
  | nil => simp [recordSet]
  | cons p rest ih =>
    obtain ⟨k', v'⟩ := p
    by_cases hk : k' = k
    · exfalso
      rw [recordHas, recordGet, if_pos hk] at h
      simp at h
    · rw [recordHas, recordGet, if_neg hk] at h
      simp [recordSet, hk, ih h]

theorem recordSet_length_of_has {β : Type} (m : List (String × β))
    (k : String) (v : β) (h : recordHas m k = true) :
    (recordSet m k v).length = m.length := by
  induction m with
  | nil => simp [recordHas, recordGet] at h
  | cons p rest ih =>
    obtain ⟨k', v'⟩ := p
    by_cases hk : k' = k
    · simp [recordSet, hk]
    · rw [recordHas, recordGet, if_neg hk] at h
      simp [recordSet, hk, ih h]

theorem recordSet_mem_self {β : Type} (m : List (String × β)) (k : String)
    (v : β) : (k, v) ∈ recordSet m k v := by
  induction m with
  | nil => simp [recordSet]
  | cons p rest ih =>
    obtain ⟨k', v'⟩ := p
    by_cases hk : k' = k
    · simp [recordSet, hk]
    · simp [recordSet, hk]
      right
      exact ih

theorem mem_recordSet {β : Type} (m : List (String × β)) (k : String)
    (v : β) (p : String × β) (hnd : (m.map Prod.fst).Nodup)
    (h : p ∈ recordSet m k v) : p = (k, v) ∨ (p ∈ m ∧ p.1 ≠ k) := by
  induction m with
  | nil =>
    simp [recordSet] at h
    left
    simp [h]
  | cons q rest ih =>
    obtain ⟨k', v'⟩ := q
    simp only [List.map_cons, List.nodup_cons] at hnd
    by_cases hk : k' = k
    · subst hk
      rw [recordSet, if_pos rfl] at h
      rcases List.mem_cons.mp h with h1 | h2
      · left; exact h1
      · right
        refine ⟨List.mem_cons_of_mem _ h2, ?_⟩
        intro hpk
        exact hnd.1 (hpk ▸ List.mem_map_of_mem Prod.fst h2)
    · rw [recordSet, if_neg hk] at h
      rcases List.mem_cons.mp h with h1 | h2
      · right
        refine ⟨by simp [h1], ?_⟩
        rw [h1]
        exact hk
      · rcases ih hnd.2 h2 with h3 | h3
        · left; exact h3
        · right; exact ⟨List.mem_cons_of_mem _ h3.1, h3.2⟩

theorem handleDeleteNode_eq_some (story : Story) (X : String)
    (h : X ≠ story.startNodeId) :
    handleDeleteNode story X = some
      { story with nodes := (recordDelete story.nodes X).map (fun p =>
          (p.1, { p.2 with
            choices := p.2.choices.filter (fun c => c.targetNodeId != X) })) } := by
  rw [handleDeleteNode, if_neg h]

theorem recordGet_cascade (m : List (String × StoryNode)) (X k : String) :
    recordGet (m.map (fun p =>
      (p.1, { p.2 with
        choices := p.2.choices.filter (fun c => c.targetNodeId != X) }))) k =
    (recordGet m k).map (fun n =>
      { n with choices := n.choices.filter (fun c => c.targetNodeId != X) }) := by
  induction m with
  | nil => simp [recordGet]
  | cons p rest ih =>
    obtain ⟨k', v'⟩ := p
    by_cases h : k' = k
    · simp [recordGet, h]
    · simp [recordGet, h, ih]

theorem buildAiChoices_mono (now : Nat) :
    ∀ (cs : List GenChoice) (nodes : List (String × StoryNode)) (idx : Nat)
      (k : String), recordHas nodes k = true →
      recordHas (buildAiChoices now nodes cs idx).2 k = true := by
  intro cs
  induction cs with
  | nil =>
    intro nodes idx k h
    simpa [buildAiChoices] using h
  | cons c rest ih =>
    intro nodes idx k h
    rw [buildAiChoices]
    cases hl : linkTarget nodes c with
    | some t => simpa using ih nodes (idx + 1) k h
    | none => simpa using ih _ (idx + 1) k (recordHas_set _ _ _ _ h)

/-- C2: Deleting the start node is rejected (`none`: the alert path, no
commit, document unchanged); and every committed mutation — delete of any
id, create node, save (which commits node edits, added choices and removed
choices), and the AI-expansion merge — preserves the invariant that
`startNodeId` is a key of `nodes`. -/
theorem start_node_permanence (story : Story) (id : String)
    (editNode cn : StoryNode) (result : GenResult) (now idx : Nat)
    (h : recordHas story.nodes story.startNodeId = true) :
    handleDeleteNode story story.startNodeId = none ∧
    (handleDeleteNode story id).elim True (fun s' =>
      recordHas s'.nodes s'.startNodeId = true) ∧
    recordHas (handleAddNode story now).nodes
      (handleAddNode story now).startNodeId = true ∧
    recordHas (handleSaveNode story editNode).nodes
      (handleSaveNode story editNode).startNodeId = true ∧
    recordHas (handleSaveNode story (handleAddChoice story editNode now)).nodes
      (handleSaveNode story (handleAddChoice story editNode now)).startNodeId
      = true ∧
    recordHas (handleSaveNode story (removeChoice editNode idx)).nodes
      (handleSaveNode story (removeChoice editNode idx)).startNodeId = true ∧
    recordHas (handleAiGeneration story id cn result now).nodes
      (handleAiGeneration story id cn result now).startNodeId = true := by
  refine ⟨?_, ?_, ?_, ?_, ?_, ?_, ?_⟩
  · rw [handleDeleteNode, if_pos rfl]
  · by_cases hid : id = story.startNodeId
    · rw [handleDeleteNode, if_pos hid]
      simp
    · rw [handleDeleteNode_eq_some story id hid]
      simp only [Option.elim_some]
      rw [recordHas, recordGet_cascade,
        recordGet_delete_ne story.nodes id story.startNodeId (Ne.symm hid)]
      rw [recordHas] at h
      simpa using h
  · exact recordHas_set _ _ _ _ h
  · exact recordHas_set _ _ _ _ h
  · exact recordHas_set _ _ _ _ h
  · exact recordHas_set _ _ _ _ h
  · exact recordHas_set _ _ _ _
      (buildAiChoices_mono now result.choices story.nodes 0 _ h)

/-- Witness for C2 at a concrete document. -/
theorem start_node_permanence_witness :
    recordHas docABC.nodes docABC.startNodeId = true ∧
    (handleDeleteNode docABC docABC.startNodeId = none ∧
    (handleDeleteNode docABC "B").elim True (fun s' =>
      recordHas s'.nodes s'.startNodeId = true) ∧
    recordHas (handleAddNode docABC 777).nodes
      (handleAddNode docABC 777).startNodeId = true ∧
    recordHas (handleSaveNode docABC deadEndX).nodes
      (handleSaveNode docABC deadEndX).startNodeId = true ∧
    recordHas (handleSaveNode docABC (handleAddChoice docABC deadEndX 777)).nodes
      (handleSaveNode docABC (handleAddChoice docABC deadEndX 777)).startNodeId
      = true ∧
    recordHas (handleSaveNode docABC (removeChoice deadEndX 0)).nodes
      (handleSaveNode docABC (removeChoice deadEndX 0)).startNodeId = true ∧
    recordHas (handleAiGeneration docABC "B" deadEndX resultContentOnly 777).nodes
      (handleAiGeneration docABC "B" deadEndX resultContentOnly 777).startNodeId
      = true) :=
  ⟨by decide,
   start_node_permanence docABC "B" deadEndX deadEndX resultContentOnly 777 0
     (by decide)⟩

/-- C3: Deleting a non-start node `X` removes the key `X`, leaves every
other node in place with exactly the choices not targeting `X` (in their
original order, via `filter`), so no remaining choice targets `X`; in the
concrete `A → B → C` document with the extra convergent edge `A → C`,
deleting `B` leaves `A` with exactly the single choice to `C`. -/
theorem delete_node_cascade (story : Story) (X : String)
    (h : X ≠ story.startNodeId) :
    (handleDeleteNode story X).elim False (fun s' =>
      s'.startNodeId = story.startNodeId ∧
      recordGet s'.nodes X = none ∧
      (∀ k, k ≠ X → recordGet s'.nodes k =
        (recordGet story.nodes k).map (fun n =>
          { n with choices :=
              n.choices.filter (fun c => c.targetNodeId != X) })) ∧
      (∀ p ∈ s'.nodes, ∀ c ∈ p.2.choices, c.targetNodeId ≠ X)) ∧
    recordGet ((handleDeleteNode docABC "B").getD docABC).nodes "A" =
      some nodeAAfterDeleteB := by
  constructor
  · rw [handleDeleteNode_eq_some story X h]
    simp only [Option.elim_some]
    refine ⟨by trivial, ?_, ?_, ?_⟩
    · rw [recordGet_cascade, recordGet_delete_self]
      rfl
    · intro k hk
      rw [recordGet_cascade, recordGet_delete_ne story.nodes X k hk]
    · intro p hp c hc
      obtain ⟨q, _, rfl⟩ := List.mem_map.mp hp
      have := List.of_mem_filter hc
      simpa using this
  · decide

/-- Witness for C3 at the concrete 3-node document. -/
theorem delete_node_cascade_witness :
    ("B" : String) ≠ docABC.startNodeId ∧
    ((handleDeleteNode docABC "B").elim False (fun s' =>
      s'.startNodeId = docABC.startNodeId ∧
      recordGet s'.nodes "B" = none ∧
      (∀ k, k ≠ "B" → recordGet s'.nodes k =
        (recordGet docABC.nodes k).map (fun n =>
          { n with choices :=
              n.choices.filter (fun c => c.targetNodeId != "B") })) ∧
      (∀ p ∈ s'.nodes, ∀ c ∈ p.2.choices, c.targetNodeId ≠ "B")) ∧
    recordGet ((handleDeleteNode docABC "B").getD docABC).nodes "A" =
      some nodeAAfterDeleteB) :=
  ⟨by decide, delete_node_cascade docABC "B" (by decide)⟩

/-- Membership in `linkedNodeIds`: exactly the ids that appear as the
`targetNodeId` of some choice of some node. -/
theorem linkedNodeIds_mem (story : Story) (x : String) :
    x ∈ linkedNodeIds story ↔
      ∃ p ∈ story.nodes, ∃ c ∈ p.2.choices, c.targetNodeId = x := by
  simp only [linkedNodeIds, List.mem_flatten, List.mem_map]
  constructor
  · rintro ⟨l, ⟨p, hp, rfl⟩, hx⟩
    obtain ⟨c, hc, rfl⟩ := List.mem_map.mp hx
    exact ⟨p, hp, c, hc, rfl⟩
  · rintro ⟨p, hp, c, hc, rfl⟩
    exact ⟨p.2.choices.map (fun c => c.targetNodeId), ⟨p, hp, rfl⟩,
      List.mem_map_of_mem _ hc⟩

/-- C8: A node is reported as orphan iff its id differs from `startNodeId`
and no choice of any node targets it; committing (via save) an edit buffer
containing a choice targeting it removes it from the orphan set; and
committing an edit buffer from which the last such choice was removed
(no other node's choices target it, keys distinct) restores it. -/
theorem orphan_detection_correct (story : Story) (node o editNode : StoryNode) :
    (isOrphan story node = true ↔
      (node.id ≠ story.startNodeId ∧
       ∀ p ∈ story.nodes, ∀ c ∈ p.2.choices, c.targetNodeId ≠ node.id)) ∧
    ((∃ c ∈ editNode.choices, c.targetNodeId = o.id) →
      isOrphan (handleSaveNode story editNode) o = false) ∧
    ((story.nodes.map Prod.fst).Nodup →
     (∀ p ∈ story.nodes, p.1 ≠ editNode.id →
        ∀ c ∈ p.2.choices, c.targetNodeId ≠ o.id) →
     (∀ c ∈ editNode.choices, c.targetNodeId ≠ o.id) →
     o.id ≠ story.startNodeId →
     isOrphan (handleSaveNode story editNode) o = true) := by
  refine ⟨?_, ?_, ?_⟩
  · have hiff : isOrphan story node = true ↔
        (node.id ≠ story.startNodeId ∧ node.id ∉ linkedNodeIds story) := by
      simp [isOrphan]
    rw [hiff, linkedNodeIds_mem]
    constructor
    · rintro ⟨h1, h2⟩
      exact ⟨h1, fun p hp c hc hct => h2 ⟨p, hp, c, hc, hct⟩⟩
    · rintro ⟨h1, h2⟩
      refine ⟨h1, ?_⟩
      rintro ⟨p, hp, c, hc, hct⟩
      exact h2 p hp c hc hct
  · rintro ⟨c, hc, hct⟩
    have hmem : o.id ∈ linkedNodeIds (handleSaveNode story editNode) :=
      (linkedNodeIds_mem _ _).mpr
        ⟨(editNode.id, editNode), recordSet_mem_self _ _ _, c, hc, hct⟩
    simp [isOrphan, hmem]
  · intro hnd h2 h3 h4
    have hnmem : o.id ∉ linkedNodeIds (handleSaveNode story editNode) := by
      intro hmem
      obtain ⟨p, hp, c, hc, hct⟩ := (linkedNodeIds_mem _ _).mp hmem
      rcases mem_recordSet story.nodes editNode.id editNode p hnd hp with
        heq | ⟨hin, hne⟩
      · subst heq
        exact h3 c hc hct
      · exact h2 p hin hne c hc hct
    simp only [handleSaveNode] at hnmem
    simp [isOrphan, handleSaveNode, h4, hnmem]

/-- Witness for C8 at the self-loop document. -/
theorem orphan_detection_correct_witness :
    ((isOrphan docSelfLoop loopL = true ↔
      (loopL.id ≠ docSelfLoop.startNodeId ∧
       ∀ p ∈ docSelfLoop.nodes, ∀ c ∈ p.2.choices,
         c.targetNodeId ≠ loopL.id)) ∧
    ((∃ c ∈ loopL.choices, c.targetNodeId = loopL.id) →
      isOrphan (handleSaveNode docSelfLoop loopL) loopL = false) ∧
    ((docSelfLoop.nodes.map Prod.fst).Nodup →
     (∀ p ∈ docSelfLoop.nodes, p.1 ≠ loopL.id →
        ∀ c ∈ p.2.choices, c.targetNodeId ≠ loopL.id) →
     (∀ c ∈ loopL.choices, c.targetNodeId ≠ loopL.id) →
     loopL.id ≠ docSelfLoop.startNodeId →
     isOrphan (handleSaveNode docSelfLoop loopL) loopL = true)) :=
  orphan_detection_correct docSelfLoop loopL loopL loopL

/-- C10: The orphan test checks for an inbound edge only, not
reachability: any node targeted by some choice anywhere (even a self-loop,
or an edge inside a cluster unreachable from the start node) is not
reported as orphan, while genuinely being unreachable from the start. -/
theorem orphan_inbound_not_reachability (story : Story) (node : StoryNode) :
    ((∃ p ∈ story.nodes, ∃ c ∈ p.2.choices, c.targetNodeId = node.id) →
      isOrphan story node = false) ∧
    isOrphan docSelfLoop loopL = false ∧
    reachableFromStart docSelfLoop "L" = false ∧
    isOrphan docCluster clusterX = false ∧
    reachableFromStart docCluster "X" = false ∧
    reachableFromStart docCluster "Y" = false := by
  refine ⟨?_, by decide, by decide, by decide, by decide, by decide⟩
  intro hex
  have hmem : node.id ∈ linkedNodeIds story := (linkedNodeIds_mem _ _).mpr hex
  simp [isOrphan, hmem]

/-- Witness for C10 at the unreachable-cluster document. -/
theorem orphan_inbound_not_reachability_witness :
    (((∃ p ∈ docCluster.nodes, ∃ c ∈ p.2.choices,
        c.targetNodeId = clusterX.id) →
      isOrphan docCluster clusterX = false) ∧
    isOrphan docSelfLoop loopL = false ∧
    reachableFromStart docSelfLoop "L" = false ∧
    isOrphan docCluster clusterX = false ∧
    reachableFromStart docCluster "X" = false ∧
    reachableFromStart docCluster "Y" = false) :=
  orphan_inbound_not_reachability docCluster clusterX

/-- C9: Create-node always succeeds and appends a node with an empty
choice list at the freshly minted id; across any sequence of creations
whose `Date.now()` readings are pairwise distinct, the minted node ids are
pairwise distinct (no id is ever reused). -/
theorem create_node_ids_distinct (story : Story) (ts : List Nat) (now : Nat)
    (hts : ts.Pairwise (· ≠ ·)) :
    (ts.map (fun t => "node-" ++ Nat.repr t)).Pairwise (· ≠ ·) ∧
    recordGet (handleAddNode story now).nodes ("node-" ++ Nat.repr now) =
      some { id := "node-" ++ Nat.repr now, title := "New Chapter",
             content := "A new thread begins...", choices := [] } ∧
    (recordHas story.nodes ("node-" ++ Nat.repr now) = false →
      (handleAddNode story now).nodes = story.nodes ++
        [("node-" ++ Nat.repr now,
          { id := "node-" ++ Nat.repr now, title := "New Chapter",
            content := "A new thread begins...", choices := [] })]) := by
  refine ⟨?_, ?_, ?_⟩
  · rw [List.pairwise_map]
    exact hts.imp (fun hne heq =>
      hne (nat_repr_injective (string_append_left_cancel "node-" _ _ heq)))
  · exact recordGet_set_self story.nodes _ _
  · intro hfresh
    exact recordSet_append_of_not_has story.nodes _ _ hfresh

/-- Witness for C9 at a concrete document and clock readings. -/
theorem create_node_ids_distinct_witness :
    ([5, 17, 170].Pairwise (· ≠ ·)) ∧
    (([5, 17, 170].map (fun t => "node-" ++ Nat.repr t)).Pairwise (· ≠ ·) ∧
    recordGet (handleAddNode docABC 42).nodes ("node-" ++ Nat.repr 42) =
      some { id := "node-" ++ Nat.repr 42, title := "New Chapter",
             content := "A new thread begins...", choices := [] } ∧
    (recordHas docABC.nodes ("node-" ++ Nat.repr 42) = false →
      (handleAddNode docABC 42).nodes = docABC.nodes ++
        [("node-" ++ Nat.repr 42,
          { id := "node-" ++ Nat.repr 42, title := "New Chapter",
            content := "A new thread begins...", choices := [] })])) :=
  ⟨by decide, create_node_ids_distinct docABC [5, 17, 170] 42 (by decide)⟩

theorem aiNodeId_inj (now i j : Nat) (h : aiNodeId now i = aiNodeId now j) :
    i = j :=
  nat_repr_injective
    (string_append_left_cancel ("ai-node-" ++ Nat.repr now ++ "-") _ _ h)

theorem repr_length_pos (n : Nat) : 1 ≤ (Nat.repr n).length := by
  by_cases hn : n = 0
  · subst hn; decide
  · rw [Nat.repr, toDigits_eq_decChars n hn]
    have : Nat.digits 10 n ≠ [] := by
      simpa using Nat.digits_ne_nil_iff_ne_zero.mpr hn
    have hlen : 1 ≤ (Nat.digits 10 n).length := by
      cases hd : Nat.digits 10 n with
      | nil => exact absurd hd this
      | cons a l => simp
    simpa [List.asString, decChars, String.length] using hlen

theorem short_ne_aiNodeId (s : String) (hs : s.length < 11) (now j : Nat) :
    s ≠ aiNodeId now j := by
  intro h
  have hlen := congrArg String.length h
  rw [aiNodeId, String.length_append, String.length_append,
    String.length_append] at hlen
  have h1 := repr_length_pos now
  have h2 := repr_length_pos j
  have : ("ai-node-" : String).length = 8 := by decide
  have : ("-" : String).length = 1 := by decide
  omega

theorem buildAiChoices_fst_length (now : Nat) :
    ∀ (cs : List GenChoice) (nodes : List (String × StoryNode)) (idx : Nat),
      (buildAiChoices now nodes cs idx).1.length = cs.length := by
  intro cs
  induction cs with
  | nil => intro nodes idx; simp [buildAiChoices]
  | cons c rest ih =>
    intro nodes idx
    rw [buildAiChoices]
    cases hl : linkTarget nodes c with
    | some t => simpa using ih nodes (idx + 1)
    | none => simpa using ih _ (idx + 1)

theorem buildAiChoices_get_preserved (now : Nat) :
    ∀ (cs : List GenChoice) (nodes : List (String × StoryNode)) (idx : Nat)
      (k : String), (∀ j, idx ≤ j → k ≠ aiNodeId now j) →
      recordGet (buildAiChoices now nodes cs idx).2 k = recordGet nodes k := by
  intro cs
  induction cs with
  | nil => intro nodes idx k _; simp [buildAiChoices]
  | cons c rest ih =>
    intro nodes idx k hk
    rw [buildAiChoices]
    cases hl : linkTarget nodes c with
    | some t => simpa using ih nodes (idx + 1) k (fun j hj => hk j (by omega))
    | none =>
      have hstep := ih (recordSet nodes (aiNodeId now idx) (aiNewNode c now idx))
        (idx + 1) k (fun j hj => hk j (by omega))
      simpa [hstep] using
        recordGet_set_ne nodes (aiNodeId now idx) k _ (hk idx (le_refl idx))

theorem recordSet_length_of_not_has {β : Type} (m : List (String × β))
    (k : String) (v : β) (h : recordHas m k = false) :
    (recordSet m k v).length = m.length + 1 := by
  rw [recordSet_append_of_not_has m k v h]
  simp

theorem buildAiChoices_spec (now : Nat) (nodes₀ : List (String × StoryNode))
    (hfresh : ∀ j, recordHas nodes₀ (aiNodeId now j) = false) :
    ∀ (cs : List GenChoice) (nodes : List (String × StoryNode)) (idx : Nat),
      (∀ k, recordHas nodes k = true →
        recordHas nodes₀ k = true ∨ ∃ j, j < idx ∧ k = aiNodeId now j) →
      (∀ k, recordHas nodes₀ k = true → recordHas nodes k = true) →
      ((∀ i c, cs[i]? = some c →
        (∀ t, c.targetExistingNodeId = some t → t ≠ "" →
          recordHas nodes₀ t = true →
          (buildAiChoices now nodes cs idx).1[i]? =
            some { id := aiLinkId now (idx + i), text := c.text,
                   targetNodeId := t }) ∧
        (divergentFor nodes₀ now c →
          (buildAiChoices now nodes cs idx).1[i]? =
            some { id := aiChoiceId now (idx + i), text := c.text,
                   targetNodeId := aiNodeId now (idx + i) } ∧
          recordGet (buildAiChoices now nodes cs idx).2
            (aiNodeId now (idx + i)) = some (aiNewNode c now (idx + i)))) ∧
      ((∀ c ∈ cs, okShape nodes₀ now c) →
        (buildAiChoices now nodes cs idx).2.length =
          nodes.length + cs.countP (fun c => !(linkTarget nodes₀ c).isSome))) := by
  intro cs
  induction cs with
  | nil =>
    intro nodes idx _ _
    constructor
    · intro i c hc
      simp at hc
    · intro _
      simp [buildAiChoices]
  | cons c₀ rest ih =>
    intro nodes idx hsub hsup
    have hlink : ∀ t, c₀.targetExistingNodeId = some t → t ≠ "" →
        recordHas nodes₀ t = true → linkTarget nodes c₀ = some t := by
      intro t ht hne h0
      simp [linkTarget, ht, hne, hsup t h0]
    have hdivNone : divergentFor nodes₀ now c₀ → linkTarget nodes c₀ = none := by
      intro hd
      cases hto : c₀.targetExistingNodeId with
      | none => simp [linkTarget, hto]
      | some t =>
        rcases hd t hto with h1 | ⟨h2, h3⟩
        · simp [linkTarget, hto, h1]
        · have hfalse : recordHas nodes t = false := by
            by_contra hcon
            have htrue : recordHas nodes t = true := by
              simpa using hcon
            rcases hsub t htrue with h4 | ⟨j, _, h5⟩
            · rw [h2] at h4; exact absurd h4 (by simp)
            · exact h3 j h5
          simp [linkTarget, hto, hfalse]
    have hdivNone₀ : divergentFor nodes₀ now c₀ →
        linkTarget nodes₀ c₀ = none := by
      intro hd
      cases hto : c₀.targetExistingNodeId with
      | none => simp [linkTarget, hto]
      | some t =>
        rcases hd t hto with h1 | ⟨h2, h3⟩
        · simp [linkTarget, hto, h1]
        · simp [linkTarget, hto, h2]
    have hsubLink : ∀ k, recordHas nodes k = true →
        recordHas nodes₀ k = true ∨ ∃ j, j < idx + 1 ∧ k = aiNodeId now j :=
      fun k hk => (hsub k hk).imp id (fun ⟨j, hj, he⟩ => ⟨j, by omega, he⟩)
    have hfreshHere : recordHas nodes (aiNodeId now idx) = false := by
      by_contra hcon
      have htrue : recordHas nodes (aiNodeId now idx) = true := by
        simpa using hcon
      rcases hsub _ htrue with h4 | ⟨j, hj, he⟩
      · rw [hfresh idx] at h4; exact absurd h4 (by simp)
      · have := aiNodeId_inj now idx j he
        omega
    have hsubDiv : ∀ k,
        recordHas (recordSet nodes (aiNodeId now idx)
          (aiNewNode c₀ now idx)) k = true →
        recordHas nodes₀ k = true ∨ ∃ j, j < idx + 1 ∧ k = aiNodeId now j := by
      intro k hk
      by_cases hkid : k = aiNodeId now idx
      · exact Or.inr ⟨idx, by omega, hkid⟩
      · have hk' : recordHas nodes k = true := by
          rw [recordHas] at hk ⊢
          rwa [recordGet_set_ne _ _ _ _ hkid] at hk
        exact (hsub k hk').imp id (fun ⟨j, hj, he⟩ => ⟨j, by omega, he⟩)
    have hsupDiv : ∀ k, recordHas nodes₀ k = true →
        recordHas (recordSet nodes (aiNodeId now idx)
          (aiNewNode c₀ now idx)) k = true :=
      fun k h0 => recordHas_set _ _ _ _ (hsup k h0)
    constructor
    · intro i c hc
      cases i with
      | zero =>
        have hcc : c = c₀ := by
          simp at hc
          exact hc.symm
        subst hcc
        constructor
        · intro t ht hne h0
          rw [buildAiChoices, hlink t ht hne h0]
          simp
        · intro hd
          rw [buildAiChoices, hdivNone hd]
          constructor
          · simp
          · have hpres := buildAiChoices_get_preserved now rest
              (recordSet nodes (aiNodeId now idx) (aiNewNode c now idx))
              (idx + 1) (aiNodeId now idx)
              (fun j hj heq => by
                have := aiNodeId_inj now idx j heq
                omega)
            simpa [hpres] using
              recordGet_set_self nodes (aiNodeId now idx) (aiNewNode c now idx)
      | succ i' =>
        have hc' : rest[i']? = some c := by simpa using hc
        cases hl : linkTarget nodes c₀ with
        | some t =>
          have IH := (ih nodes (idx + 1) hsubLink hsup).1 i' c hc'
          rw [buildAiChoices, hl]
          constructor
          · intro t' ht' hne' h0'
            have h := IH.1 t' ht' hne' h0'
            simpa [show idx + (i' + 1) = idx + 1 + i' by omega] using h
          · intro hd
            have h := IH.2 hd
            simpa [show idx + (i' + 1) = idx + 1 + i' by omega] using h
        | none =>
          have IH := (ih (recordSet nodes (aiNodeId now idx)
            (aiNewNode c₀ now idx)) (idx + 1) hsubDiv hsupDiv).1 i' c hc'
          rw [buildAiChoices, hl]
          constructor
          · intro t' ht' hne' h0'
            have h := IH.1 t' ht' hne' h0'
            simpa [show idx + (i' + 1) = idx + 1 + i' by omega] using h
          · intro hd
            have h := IH.2 hd
            simpa [show idx + (i' + 1) = idx + 1 + i' by omega] using h
    · intro hall
      rcases hall c₀ (by simp) with ⟨t, ht, hne, h0⟩ | hd
      · have hl := hlink t ht hne h0
        have hl₀ : linkTarget nodes₀ c₀ = some t := by
          simp [linkTarget, ht, hne, h0]
        have IH := (ih nodes (idx + 1) hsubLink hsup).2
          (fun c hcm => hall c (by simp [hcm]))
        rw [buildAiChoices, hl]
        simpa [List.countP_cons, hl₀] using IH
      · have hl := hdivNone hd
        have hl₀ := hdivNone₀ hd
        have IH := (ih (recordSet nodes (aiNodeId now idx)
          (aiNewNode c₀ now idx)) (idx + 1) hsubDiv hsupDiv).2
          (fun c hcm => hall c (by simp [hcm]))
        rw [buildAiChoices, hl]
        simp only [List.countP_cons, hl₀]
        rw [IH] at *
        rw [recordSet_length_of_not_has _ _ _ hfreshHere]
        simp
        omega

/-- C5: Merging an expansion result at an existing node: each result
choice naming a (truthy) target id of a node already in the document
yields, at its position, a choice targeting that node; each divergent
result choice yields, at its position, a choice targeting a freshly
minted node that is present in the merged document with
`isAiGenerated = true`, empty choices, title `The Path of <text>` and
content from the descriptor; and the merged document's node count is the
pre-merge count plus exactly the number of divergent choices (convergent
choices create no node). -/
theorem ai_expansion_choice_semantics (story : Story) (cid : String)
    (cn : StoryNode) (result : GenResult) (now : Nat)
    (hfresh : ∀ j, recordHas story.nodes (aiNodeId now j) = false)
    (hcid : recordHas story.nodes cid = true)
    (hshape : ∀ c ∈ result.choices, okShape story.nodes now c) :
    (∀ i c, result.choices[i]? = some c →
      (∀ t, c.targetExistingNodeId = some t → t ≠ "" →
        recordHas story.nodes t = true →
        (buildAiChoices now story.nodes result.choices 0).1[i]? =
          some { id := aiLinkId now i, text := c.text, targetNodeId := t }) ∧
      (divergentFor story.nodes now c →
        (buildAiChoices now story.nodes result.choices 0).1[i]? =
          some { id := aiChoiceId now i, text := c.text,
                 targetNodeId := aiNodeId now i } ∧
        recordGet (handleAiGeneration story cid cn result now).nodes
            (aiNodeId now i) =
          some { id := aiNodeId now i, title := "The Path of " ++ c.text,
                 content := jsOrString c.nodeDescription
                   "The story unfolds...",
                 choices := [], isAiGenerated := true })) ∧
    (handleAiGeneration story cid cn result now).nodes.length =
      story.nodes.length +
        result.choices.countP (fun c => !(linkTarget story.nodes c).isSome) := by
  have spec := buildAiChoices_spec now story.nodes hfresh result.choices
    story.nodes 0 (fun k hk => Or.inl hk) (fun k hk => hk)
  constructor
  · intro i c hc
    have S := spec.1 i c hc
    constructor
    · intro t ht hne h0
      simpa using S.1 t ht hne h0
    · intro hd
      have S2 := S.2 hd
      refine ⟨by simpa using S2.1, ?_⟩
      have hneCid : aiNodeId now i ≠ cid := by
        intro he
        rw [← he] at hcid
        rw [hfresh i] at hcid
        exact absurd hcid (by simp)
      rw [handleAiGeneration]
      simp only
      rw [recordGet_set_ne _ cid (aiNodeId now i) _ hneCid]
      simpa [aiNewNode] using S2.2
  · have hcid2 : recordHas
        (buildAiChoices now story.nodes result.choices 0).2 cid = true :=
      buildAiChoices_mono now result.choices story.nodes 0 cid hcid
    rw [handleAiGeneration]
    simp only
    rw [recordSet_length_of_has _ _ _ hcid2]
    exact spec.2 hshape

/-- Witness for C5: `docExpand`, merging `resultMixed` at the dead end. -/
theorem ai_expansion_choice_semantics_witness :
    ((∀ i c, resultMixed.choices[i]? = some c →
      (∀ t, c.targetExistingNodeId = some t → t ≠ "" →
        recordHas docExpand.nodes t = true →
        (buildAiChoices 777 docExpand.nodes resultMixed.choices 0).1[i]? =
          some { id := aiLinkId 777 i, text := c.text, targetNodeId := t }) ∧
      (divergentFor docExpand.nodes 777 c →
        (buildAiChoices 777 docExpand.nodes resultMixed.choices 0).1[i]? =
          some { id := aiChoiceId 777 i, text := c.text,
                 targetNodeId := aiNodeId 777 i } ∧
        recordGet (handleAiGeneration docExpand "X" deadEndX
            resultMixed 777).nodes (aiNodeId 777 i) =
          some { id := aiNodeId 777 i, title := "The Path of " ++ c.text,
                 content := jsOrString c.nodeDescription
                   "The story unfolds...",
                 choices := [], isAiGenerated := true })) ∧
    (handleAiGeneration docExpand "X" deadEndX resultMixed 777).nodes.length =
      docExpand.nodes.length +
        resultMixed.choices.countP
          (fun c => !(linkTarget docExpand.nodes c).isSome)) :=
  ai_expansion_choice_semantics docExpand "X" deadEndX resultMixed 777
    (fun j => by
      have hA := short_ne_aiNodeId "A" (by decide) 777 j
      have hX := short_ne_aiNodeId "X" (by decide) 777 j
      simp [recordHas, recordGet, docExpand, hA, hX])
    (by decide)
    (fun c hc => by
      simp only [resultMixed, List.mem_cons, List.not_mem_nil, or_false] at hc
      rcases hc with rfl | rfl
      · exact Or.inl ⟨"A", rfl, by decide, by decide⟩
      · refine Or.inr ?_
        intro t ht
        simp at ht)

/-- C6: Merging a second expansion result on the same node replaces the
node's choice list with exactly the list built from the second result
(its length is the second result's choice count — nothing is appended),
while every other node present after the first merge, including the nodes
the first merge minted, remains present. -/
theorem ai_expansion_overwrite (story : Story) (cid : String)
    (cn cn1 : StoryNode) (r1 r2 : GenResult) (now1 now2 : Nat)
    (h1 : recordGet (handleAiGeneration story cid cn r1 now1).nodes cid =
      some cn1) :
    recordGet (handleAiGeneration (handleAiGeneration story cid cn r1 now1)
        cid cn1 r2 now2).nodes cid =
      some { cn1 with
        content := if r2.nodeContent = "" then cn1.content else r2.nodeContent,
        choices := (buildAiChoices now2
          (handleAiGeneration story cid cn r1 now1).nodes r2.choices 0).1 } ∧
    (buildAiChoices now2 (handleAiGeneration story cid cn r1 now1).nodes
        r2.choices 0).1.length = r2.choices.length ∧
    (∀ k, k ≠ cid →
      recordHas (handleAiGeneration story cid cn r1 now1).nodes k = true →
      recordHas (handleAiGeneration (handleAiGeneration story cid cn r1 now1)
        cid cn1 r2 now2).nodes k = true) := by
  refine ⟨?_, ?_, ?_⟩
  · simp only [handleAiGeneration]
    exact recordGet_set_self _ _ _
  · exact buildAiChoices_fst_length now2 r2.choices _ 0
  · intro k hk hhas
    simp only [handleAiGeneration] at hhas ⊢
    exact recordHas_set _ _ _ _
      (buildAiChoices_mono now2 r2.choices _ 0 k hhas)

/-- Witness for C6: two successive merges at `docExpand`'s dead end. -/
theorem ai_expansion_overwrite_witness :
    (recordGet (handleAiGeneration (handleAiGeneration docExpand "X" deadEndX
        resultMixed 777) "X" mergedX1 resultContentOnly 888).nodes "X" =
      some { mergedX1 with
        content := if resultContentOnly.nodeContent = "" then mergedX1.content
                   else resultContentOnly.nodeContent,
        choices := (buildAiChoices 888
          (handleAiGeneration docExpand "X" deadEndX resultMixed 777).nodes
          resultContentOnly.choices 0).1 } ∧
    (buildAiChoices 888
        (handleAiGeneration docExpand "X" deadEndX resultMixed 777).nodes
        resultContentOnly.choices 0).1.length =
      resultContentOnly.choices.length ∧
    (∀ k, k ≠ "X" →
      recordHas (handleAiGeneration docExpand "X" deadEndX
        resultMixed 777).nodes k = true →
      recordHas (handleAiGeneration (handleAiGeneration docExpand "X" deadEndX
        resultMixed 777) "X" mergedX1 resultContentOnly 888).nodes k = true)) :=
  ai_expansion_overwrite docExpand "X" deadEndX mergedX1 resultMixed
    resultContentOnly 777 888 (by decide)
